import Mathlib

/-!
# gin-logrus request-logging middleware

A shallow embedding of `logger.go` (package `ginlogrus`): the `FieldMap`
configuration, the default configuration, and the handler returned by
`LoggerWithConfig`, followed by theorems about the emitted log entry.

External collaborators (gin's request context, logrus' entry API, the clock
and `os.Hostname`) are represented by plain data: the handler reads a
`Context`, runs the downstream chain as a function on a `World`, and appends
the call it makes on the logrus entry to the world's log.
-/

namespace GinLogrus

/-! ## binary64 arithmetic of the latency computation

`latency := int(math.Ceil(float64(stop.Nanoseconds()) / 1000.0))` goes through
`float64`.  A finite binary64 value is kept as a sign and an exact fraction;
conversion and division round to 53 significant bits, ties to even.  Exponent
range limits (overflow, subnormals) are not represented: for a 64-bit integer
divided by 1000 every intermediate magnitude lies between 2^-10 and 2^63. -/

/-- Nearest integer to `a / b`, ties to the even integer. -/
def roundHalfEven (a b : Nat) : Nat :=
  let q := a / b
  let r := a % b
  if 2 * r < b then q
  else if b < 2 * r then q + 1
  else if q % 2 = 0 then q else q + 1

/-- Floor of the binary logarithm by repeated halving (`0` for `n < 2`). -/
def log2Aux : Nat → Nat → Nat
  | 0, _ => 0
  | fuel + 1, n => if n < 2 then 0 else log2Aux fuel (n / 2) + 1

/-- Floor of the binary logarithm of `n`. -/
def floorLog2 (n : Nat) : Nat := log2Aux n n

/-- The binary64 value nearest to the positive rational `a / b`, as a fraction
`(numerator, denominator)`: with `t - L` the binary exponent of `a / b`, the
quotient is scaled into `[2^52, 2^53)`, rounded to an integer significand
(ties to even) and scaled back. -/
def roundToFloat64 (a b : Nat) : Nat × Nat :=
  if a = 0 then (0, 1) else
  let L := floorLog2 b + 1
  let t := floorLog2 (a * 2 ^ L / b)
  let m := roundHalfEven (a * 2 ^ (L + 52)) (b * 2 ^ t)
  (m * 2 ^ t, 2 ^ (L + 52))

/-- Finite binary64 value `(-1)^neg * num / den`. -/
structure Float64 where
  neg : Bool
  num : Nat
  den : Nat
  deriving DecidableEq, Repr

/-- Go conversion `float64(n)` of an integer. -/
def float64OfInt (n : Int) : Float64 :=
  let r := roundToFloat64 n.natAbs 1
  { neg := decide (n < 0), num := r.1, den := r.2 }

/-- The constant `1000.0`. -/
def f1000 : Float64 := { neg := false, num := 1000, den := 1 }

/-- Go `x / y` on float64, for a finite non-zero divisor. -/
def Float64.div (x y : Float64) : Float64 :=
  let r := roundToFloat64 (x.num * y.den) (x.den * y.num)
  { neg := xor x.neg y.neg, num := r.1, den := r.2 }

/-- Go `math.Ceil`: the least integer-valued float not below `x`. -/
def mathCeil (x : Float64) : Float64 :=
  if x.neg then { neg := true, num := x.num / x.den, den := 1 }
  else { neg := false, num := (x.num + x.den - 1) / x.den, den := 1 }

/-- Go conversion `int(x)` of a float64: the fraction is discarded. -/
def intOfFloat64 (x : Float64) : Int :=
  if x.neg then -((x.num / x.den : Nat) : Int) else ((x.num / x.den : Nat) : Int)

/-- Line 71: `int(math.Ceil(float64(ns) / 1000.0))`. -/
def latencyOf (ns : Int) : Int :=
  intOfFloat64 (mathCeil (Float64.div (float64OfInt ns) f1000))

/-! ## Configuration -/

/-- Go `type FieldMap map[fieldKey]string`, as an association list. -/
abbrev FieldMap := List (String × String)

/-- Go map index `m[k]`: the zero value `""` when `k` is absent. -/
def fieldLabel (m : FieldMap) (k : String) : String :=
  (m.lookup k).getD ""

def FieldKeyHostname : String := "hostname"
def FieldKeyStatusCode : String := "statusCode"
def FieldKeyLatency : String := "latency"
def FieldKeyClientIp : String := "ClientIP"
def FieldKeyMethod : String := "method"
def FieldKeyPath : String := "path"
def FieldKeyReferrer : String := "referrer"
def FieldKeyDataLength : String := "dataLength"
def FieldKeyUserAgent : String := "userAgent"

structure GinLogrusConfig where
  TimeFormat : String
  FieldMap : FieldMap

def timeFormat : String := "02/Jan/2006:15:04:05 -0700"

def DefaultFieldMap : FieldMap :=
  [ (FieldKeyHostname, "hostname"),
    (FieldKeyStatusCode, "statusCode"),
    (FieldKeyLatency, "latency"),
    (FieldKeyClientIp, "ClientIP"),
    (FieldKeyMethod, "method"),
    (FieldKeyPath, "path"),
    (FieldKeyReferrer, "referer"),
    (FieldKeyDataLength, "dataLength"),
    (FieldKeyUserAgent, "userAgent") ]

def DefaultGinLogrusConfig : GinLogrusConfig :=
  { TimeFormat := timeFormat, FieldMap := DefaultFieldMap }

/-! ## logrus fields and entries -/

/-- Values stored in `logrus.Fields` by the middleware: strings and ints. -/
inductive Value where
  | str (s : String)
  | int (i : Int)
  deriving DecidableEq, Repr

/-- Go `logrus.Fields`, a `map[string]interface{}`, as an association list
with pairwise distinct keys. -/
abbrev Fields := List (String × Value)

/-- Go map assignment `m[k] = v`: overwrite the binding of `k`, or add one. -/
def fieldsSet : Fields → String → Value → Fields
  | [], k, v => [(k, v)]
  | (k0, v0) :: rest, k, v =>
    if k0 = k then (k, v) :: rest else (k0, v0) :: fieldsSet rest k v

/-- Go map index with presence, `v, ok := m[k]`. -/
def fieldsGet (m : Fields) (k : String) : Option Value :=
  m.lookup k

/-- Go map literal with computed keys: the bindings are stored in source
order, so a later binding of a key replaces an earlier one. -/
def mapLiteral (kvs : List (String × Value)) : Fields :=
  kvs.foldl (fun m kv => fieldsSet m kv.1 kv.2) []

/-- The part of `logrus.Entry` the middleware touches. -/
structure Entry where
  Data : Fields
  deriving DecidableEq, Repr

/-- Go `logrus.NewEntry(log)`: an entry without fields. -/
def NewEntry : Entry := { Data := [] }

/-- Go `entry.WithFields(fields)`: a new entry whose data is the old data
with every binding of `fields` stored on top. -/
def WithFields (e : Entry) (fields : Fields) : Entry :=
  { Data := fields.foldl (fun m kv => fieldsSet m kv.1 kv.2) e.Data }

/-- Severity method called on the entry: `Error`, `Warn` or `Info`. -/
inductive Level where
  | error
  | warn
  | info
  deriving DecidableEq, Repr

/-- One call `entry.Error(msg)`, `entry.Warn(msg)` or `entry.Info(msg)`. -/
structure LogCall where
  level : Level
  data : Fields
  msg : String
  deriving DecidableEq, Repr

/-! ## gin context -/

/-- An element of `c.Errors`: its description and whether it is of the
private type. -/
structure GinError where
  Err : String
  isPrivate : Bool
  deriving DecidableEq, Repr

/-- Modelled from the spec: gin's `errorMsgs.ByType` is not part of this
repository; with `gin.ErrorTypePrivate` it keeps the private-type errors, in
order ("only private-type errors, not all error types, are surfaced"). -/
def ByTypePrivate (errs : List GinError) : List GinError :=
  errs.filter (fun e => e.isPrivate)

/-- The fields of `c.Request` read by the middleware. -/
structure Request where
  Method : String
  Path : String
  UserAgent : String
  Referer : String
  deriving DecidableEq, Repr

/-- The part of `*gin.Context` read by the middleware: the request, the
result of `c.ClientIP()`, `c.Writer.Status()`, `c.Writer.Size()` and
`c.Errors`. -/
structure Context where
  Request : Request
  ClientIP : String
  Status : Int
  Size : Int
  Errors : List GinError
  deriving DecidableEq, Repr

/-- What one invocation observes outside the context: the nanoseconds of
`time.Since(start)`, the result of `os.Hostname()` (`none` when it returns an
error), `time.Now().Format(layout)`, and gin's `errorMsgs.String()`. -/
structure Env where
  elapsed : Int
  hostname : Option String
  now : String → String
  errorsString : List GinError → String

/-- The mutable state a handler acts on: the request context and the calls
made so far on entries of the logger. -/
structure World where
  ctx : Context
  log : List LogCall

/-- The call `entry.<level>(msg)`, recorded in the world. -/
def Entry.emit (e : Entry) (lvl : Level) (msg : String) (w : World) : World :=
  { w with log := w.log ++ [{ level := lvl, data := e.Data, msg := msg }] }

/-- Line 100: `fmt.Sprintf("%s - %s [%s] \"%s %s\" %d %d \"%s\" \"%s\" (%dms)", ...)`. -/
def accessLine (clientIP hostname timestamp method path : String) (statusCode dataLength : Int)
    (referer clientUserAgent : String) (latency : Int) : String :=
  clientIP ++ " - " ++ hostname ++ " [" ++ timestamp ++ "] \"" ++ method ++ " " ++ path
    ++ "\" " ++ toString statusCode ++ " " ++ toString dataLength ++ " \"" ++ referer
    ++ "\" \"" ++ clientUserAgent ++ "\" (" ++ toString latency ++ "ms)"

/-- Lines 76-79: the host name, or `"unknown"` when `os.Hostname` failed. -/
def resolveHostname (r : Option String) : String :=
  match r with
  | some h => h
  | none => "unknown"

/-- Lines 80-83: `c.Writer.Size()`, with a negative size replaced by 0. -/
def clampDataLength (size : Int) : Int :=
  if size < 0 then 0 else size

/-- Lines 85-95: the key/value pairs of the `logrus.Fields` literal, in
source order. -/
def logrusFields (cfg : GinLogrusConfig) (hostname : String) (statusCode latency : Int)
    (clientIP method path referer : String) (dataLength : Int) (clientUserAgent : String) :
    List (String × Value) :=
  [ (fieldLabel cfg.FieldMap FieldKeyHostname, Value.str hostname),
    (fieldLabel cfg.FieldMap FieldKeyStatusCode, Value.int statusCode),
    (fieldLabel cfg.FieldMap FieldKeyLatency, Value.int latency),
    (fieldLabel cfg.FieldMap FieldKeyClientIp, Value.str clientIP),
    (fieldLabel cfg.FieldMap FieldKeyMethod, Value.str method),
    (fieldLabel cfg.FieldMap FieldKeyPath, Value.str path),
    (fieldLabel cfg.FieldMap FieldKeyReferrer, Value.str referer),
    (fieldLabel cfg.FieldMap FieldKeyDataLength, Value.int dataLength),
    (fieldLabel cfg.FieldMap FieldKeyUserAgent, Value.str clientUserAgent) ]

/-- The handler returned by `LoggerWithConfig(log, cfg)` (lines 65-109), with
`next` the rest of the handler chain run by `c.Next()`. -/
def LoggerWithConfig (cfg : GinLogrusConfig) (env : Env) (next : World → World)
    (w : World) : World :=
  let path := w.ctx.Request.Path
  let w1 := next w
  let c := w1.ctx
  let latency := latencyOf env.elapsed
  let statusCode := c.Status
  let clientIP := c.ClientIP
  let clientUserAgent := c.Request.UserAgent
  let referer := c.Request.Referer
  let hostname := resolveHostname env.hostname
  let dataLength := clampDataLength c.Size
  let entry := WithFields NewEntry (mapLiteral (logrusFields cfg hostname statusCode latency
    clientIP c.Request.Method path referer dataLength clientUserAgent))
  if c.Errors.length > 0 then
    entry.emit Level.error (env.errorsString (ByTypePrivate c.Errors)) w1
  else
    let msg := accessLine clientIP hostname (env.now cfg.TimeFormat) c.Request.Method path
      statusCode dataLength referer clientUserAgent latency
    if statusCode > 499 then
      entry.emit Level.error msg w1
    else if statusCode > 399 then
      entry.emit Level.warn msg w1
    else
      entry.emit Level.info msg w1

/-- The handler returned by `Logger(log)`. -/
def Logger (env : Env) (next : World → World) (w : World) : World :=
  LoggerWithConfig DefaultGinLogrusConfig env next w

/-- The calls this invocation made on its entry: what the handler appended to
the log the downstream chain left behind. -/
def emitted (cfg : GinLogrusConfig) (env : Env) (next : World → World) (w : World) :
    List LogCall :=
  (LoggerWithConfig cfg env next w).log.drop (next w).log.length

/-- The nine labels the configuration resolves the attribute keys to, in the
order of the field literal. -/
def resolvedLabels (cfg : GinLogrusConfig) : List String :=
  [ fieldLabel cfg.FieldMap FieldKeyHostname,
    fieldLabel cfg.FieldMap FieldKeyStatusCode,
    fieldLabel cfg.FieldMap FieldKeyLatency,
    fieldLabel cfg.FieldMap FieldKeyClientIp,
    fieldLabel cfg.FieldMap FieldKeyMethod,
    fieldLabel cfg.FieldMap FieldKeyPath,
    fieldLabel cfg.FieldMap FieldKeyReferrer,
    fieldLabel cfg.FieldMap FieldKeyDataLength,
    fieldLabel cfg.FieldMap FieldKeyUserAgent ]

/-! ## Sample inputs -/

/-- The default field map with `FieldKeyStatusCode` mapped to `"http_status"`. -/
def httpStatusFieldMap : FieldMap :=
  [ (FieldKeyHostname, "hostname"),
    (FieldKeyStatusCode, "http_status"),
    (FieldKeyLatency, "latency"),
    (FieldKeyClientIp, "ClientIP"),
    (FieldKeyMethod, "method"),
    (FieldKeyPath, "path"),
    (FieldKeyReferrer, "referer"),
    (FieldKeyDataLength, "dataLength"),
    (FieldKeyUserAgent, "userAgent") ]

/-- A configuration with the default time format and `httpStatusFieldMap`. -/
def httpStatusConfig : GinLogrusConfig :=
  { TimeFormat := timeFormat, FieldMap := httpStatusFieldMap }

/-- A configuration whose field map is empty. -/
def emptyConfig : GinLogrusConfig :=
  { TimeFormat := timeFormat, FieldMap := [] }

/-- The request `GET /widgets` from 10.0.0.5 before any handler ran. -/
def widgetsWorld : World :=
  { ctx :=
      { Request :=
          { Method := "GET", Path := "/widgets", UserAgent := "TestAgent/1.0",
            Referer := "http://ref.example" },
        ClientIP := "10.0.0.5", Status := 200, Size := -1, Errors := [] },
    log := [] }

/-- A downstream chain that answers with `status` and `size` bytes, records
`errs`, and rewrites the request path to `"/rewritten"`. -/
def respond (status size : Int) (errs : List GinError) (w : World) : World :=
  { w with ctx :=
      { w.ctx with
        Request := { w.ctx.Request with Path := "/rewritten" },
        Status := status, Size := size, Errors := w.ctx.Errors ++ errs } }

/-- An environment: `ns` nanoseconds elapsed, host name lookup result `host`,
a clock that renders `"10/Oct/2000:13:55:36 -0700"`, and an error list
rendered by joining the descriptions. -/
def sampleEnv (ns : Int) (host : Option String) : Env :=
  { elapsed := ns, hostname := host,
    now := fun _ => "10/Oct/2000:13:55:36 -0700",
    errorsString := fun errs => String.join (errs.map (fun e => e.Err)) }

/-! ## Maps as association lists -/

theorem fieldsGet_fieldsSet (m : Fields) (k : String) (v : Value) (k1 : String) :
    fieldsGet (fieldsSet m k v) k1 = if k = k1 then some v else fieldsGet m k1 := by
  induction m with
  | nil =>
    by_cases h : k = k1
    · subst h; simp [fieldsSet, fieldsGet, List.lookup]
    · have h1 : (k1 == k) = false := by simpa using fun e => h e.symm
      simp [fieldsSet, fieldsGet, List.lookup, h, h1]
  | cons p rest ih =>
    obtain ⟨k0, v0⟩ := p
    unfold fieldsGet at ih ⊢
    by_cases h0 : k0 = k
    · subst h0
      by_cases h : k0 = k1
      · subst h; simp [fieldsSet, List.lookup]
      · have h1 : (k1 == k0) = false := by simpa using fun e => h e.symm
        simp [fieldsSet, List.lookup, h, h1]
    · by_cases h : k0 = k1
      · subst h
        have h2 : ¬ k = k0 := fun e => h0 e.symm
        simp [fieldsSet, List.lookup, h0, h2]
      · have h1 : (k1 == k0) = false := by simpa using fun e => h e.symm
        simp [fieldsSet, List.lookup, h0, h1, ih]

theorem fieldsGet_foldl_of_not_mem (l : List (String × Value)) (acc : Fields) (k : String)
    (h : k ∉ l.map Prod.fst) :
    fieldsGet (l.foldl (fun m kv => fieldsSet m kv.1 kv.2) acc) k = fieldsGet acc k := by
  induction l generalizing acc with
  | nil => rfl
  | cons p rest ih =>
    simp only [List.map_cons, List.mem_cons, not_or] at h
    rw [List.foldl_cons, ih _ h.2, fieldsGet_fieldsSet, if_neg (fun e => h.1 e.symm)]

/-- In a map literal the last binding of a key is the one that is kept. -/
theorem fieldsGet_mapLiteral (l1 l2 : List (String × Value)) (k : String) (v : Value)
    (h : k ∉ l2.map Prod.fst) :
    fieldsGet (mapLiteral (l1 ++ (k, v) :: l2)) k = some v := by
  unfold mapLiteral
  rw [List.foldl_append, List.foldl_cons, fieldsGet_foldl_of_not_mem _ _ _ h,
    fieldsGet_fieldsSet, if_pos rfl]

theorem mem_fieldsSet (m : Fields) (k : String) (v : Value) (p : String × Value)
    (h : p ∈ fieldsSet m k v) : p ∈ m ∨ p = (k, v) := by
  induction m with
  | nil => simpa [fieldsSet] using h
  | cons q rest ih =>
    obtain ⟨k0, v0⟩ := q
    by_cases h0 : k0 = k
    · simp only [fieldsSet, if_pos h0, List.mem_cons] at h
      rcases h with h | h
      · exact Or.inr h
      · exact Or.inl (List.mem_cons_of_mem _ h)
    · simp only [fieldsSet, if_neg h0, List.mem_cons] at h
      rcases h with h | h
      · exact Or.inl (h ▸ List.mem_cons_self _ _)
      · rcases ih h with h1 | h1
        · exact Or.inl (List.mem_cons_of_mem _ h1)
        · exact Or.inr h1

theorem mem_foldl_fieldsSet (l : List (String × Value)) (acc : Fields) (p : String × Value)
    (h : p ∈ l.foldl (fun m kv => fieldsSet m kv.1 kv.2) acc) : p ∈ acc ∨ p ∈ l := by
  induction l generalizing acc with
  | nil => exact Or.inl h
  | cons q rest ih =>
    rw [List.foldl_cons] at h
    rcases ih _ h with h1 | h1
    · rcases mem_fieldsSet _ _ _ _ h1 with h2 | h2
      · exact Or.inl h2
      · exact Or.inr (h2 ▸ List.mem_cons_self _ _)
    · exact Or.inr (List.mem_cons_of_mem _ h1)

/-- Every binding of a map literal is one of the pairs written in it. -/
theorem mem_mapLiteral (l : List (String × Value)) (p : String × Value)
    (h : p ∈ mapLiteral l) : p ∈ l := by
  rcases mem_foldl_fieldsSet l [] p h with h1 | h1
  · simp at h1
  · exact h1

theorem keys_fieldsSet (m : Fields) (k : String) (v : Value) :
    (fieldsSet m k v).map Prod.fst =
      if k ∈ m.map Prod.fst then m.map Prod.fst else m.map Prod.fst ++ [k] := by
  induction m with
  | nil => simp [fieldsSet]
  | cons q rest ih =>
    obtain ⟨k0, v0⟩ := q
    by_cases h0 : k0 = k
    · subst h0; simp [fieldsSet]
    · have h1 : ¬ k = k0 := fun e => h0 e.symm
      by_cases h2 : k ∈ rest.map Prod.fst
      · simp only [fieldsSet, if_neg h0, List.map_cons, ih, if_pos h2, List.mem_cons, h2,
          or_true, if_true]
      · simp only [fieldsSet, if_neg h0, List.map_cons, ih, if_neg h2, List.mem_cons, h1, h2,
          or_self, if_false, List.cons_append]

theorem nodup_keys_fieldsSet (m : Fields) (k : String) (v : Value)
    (h : (m.map Prod.fst).Nodup) : ((fieldsSet m k v).map Prod.fst).Nodup := by
  rw [keys_fieldsSet]
  split
  · exact h
  · next hk =>
    rw [List.nodup_append]
    refine ⟨h, List.nodup_singleton k, ?_⟩
    intro a ha hb
    rw [List.mem_singleton] at hb
    exact hk (hb ▸ ha)

theorem toFinset_keys_fieldsSet (m : Fields) (k : String) (v : Value) :
    ((fieldsSet m k v).map Prod.fst).toFinset = insert k (m.map Prod.fst).toFinset := by
  rw [keys_fieldsSet]
  split
  · next hk =>
    rw [Finset.insert_eq_of_mem (List.mem_toFinset.mpr hk)]
  · ext a
    simp only [List.toFinset_append, List.toFinset_cons, List.toFinset_nil, Finset.mem_union,
      List.mem_toFinset, Finset.mem_insert, Finset.mem_singleton, Finset.not_mem_empty,
      or_false, insert_emptyc_eq]
    tauto

theorem keys_foldl_fieldsSet (l : List (String × Value)) (acc : Fields)
    (h : (acc.map Prod.fst).Nodup) :
    ((l.foldl (fun m kv => fieldsSet m kv.1 kv.2) acc).map Prod.fst).Nodup ∧
    ((l.foldl (fun m kv => fieldsSet m kv.1 kv.2) acc).map Prod.fst).toFinset =
      (acc.map Prod.fst).toFinset ∪ (l.map Prod.fst).toFinset := by
  induction l generalizing acc with
  | nil => simp [h]
  | cons q rest ih =>
    rw [List.foldl_cons]
    obtain ⟨h1, h2⟩ := ih (fieldsSet acc q.1 q.2) (nodup_keys_fieldsSet acc q.1 q.2 h)
    refine ⟨h1, ?_⟩
    rw [h2, toFinset_keys_fieldsSet]
    ext a
    simp only [Finset.mem_union, Finset.mem_insert, List.mem_toFinset, List.map_cons,
      List.toFinset_cons]
    tauto

/-- The keys of a map literal are pairwise distinct. -/
theorem nodup_keys_mapLiteral (l : List (String × Value)) :
    ((mapLiteral l).map Prod.fst).Nodup :=
  (keys_foldl_fieldsSet l [] (by simp)).1

/-- A map literal has as many bindings as it has distinct keys. -/
theorem length_mapLiteral (l : List (String × Value)) :
    (mapLiteral l).length = (l.map Prod.fst).dedup.length := by
  have h := keys_foldl_fieldsSet l [] (by simp)
  have h1 : ((mapLiteral l).map Prod.fst).toFinset.card = (mapLiteral l).length := by
    rw [List.toFinset_card_of_nodup (nodup_keys_mapLiteral l), List.length_map]
  have h2 : ((mapLiteral l).map Prod.fst).toFinset = (l.map Prod.fst).toFinset := by
    have := h.2
    simpa [mapLiteral] using this
  rw [← h1, h2, List.card_toFinset]

theorem foldl_fieldsSet_of_nodup (l : List (String × Value)) (acc : Fields)
    (h : ((acc ++ l).map Prod.fst).Nodup) :
    l.foldl (fun m kv => fieldsSet m kv.1 kv.2) acc = acc ++ l := by
  induction l generalizing acc with
  | nil => simp
  | cons q rest ih =>
    obtain ⟨k, v⟩ := q
    have hk : k ∉ acc.map Prod.fst := by
      intro hm
      rw [List.map_append, List.map_cons, List.nodup_append] at h
      exact h.2.2 hm (List.mem_cons_self _ _)
    have hset : fieldsSet acc k v = acc ++ [(k, v)] := by
      clear ih h
      induction acc with
      | nil => rfl
      | cons r racc ih2 =>
        obtain ⟨k0, v0⟩ := r
        simp only [List.map_cons, List.mem_cons, not_or] at hk
        have hne : ¬ k0 = k := fun e => hk.1 e.symm
        simp only [fieldsSet, if_neg hne, ih2 hk.2, List.cons_append]
    rw [List.foldl_cons]
    show List.foldl _ (fieldsSet acc k v) rest = _
    rw [hset, ih (acc ++ [(k, v)]) (by simpa using h)]
    simp

/-- A map literal whose keys are pairwise distinct holds exactly its pairs. -/
theorem mapLiteral_of_nodup (l : List (String × Value)) (h : (l.map Prod.fst).Nodup) :
    mapLiteral l = l := by
  unfold mapLiteral
  rw [foldl_fieldsSet_of_nodup l [] (by simpa using h)]
  simp

/-- The entry built from a fresh entry and a map literal holds the literal. -/
theorem withFields_newEntry (l : List (String × Value)) :
    (WithFields NewEntry (mapLiteral l)).Data = mapLiteral l := by
  unfold WithFields NewEntry
  show List.foldl _ [] (mapLiteral l) = _
  rw [foldl_fieldsSet_of_nodup (mapLiteral l) [] (by simpa using nodup_keys_mapLiteral l)]
  simp

/-! ## One invocation of the handler -/

/-- With a recorded error the handler appends one `Error` call whose message
renders the private-type errors. -/
theorem run_of_errors (cfg : GinLogrusConfig) (env : Env) (next : World → World) (w : World)
    (h : (next w).ctx.Errors ≠ []) :
    LoggerWithConfig cfg env next w =
      { ctx := (next w).ctx,
        log := (next w).log ++
          [{ level := Level.error,
             data := mapLiteral (logrusFields cfg (resolveHostname env.hostname)
               (next w).ctx.Status (latencyOf env.elapsed) (next w).ctx.ClientIP
               (next w).ctx.Request.Method w.ctx.Request.Path (next w).ctx.Request.Referer
               (clampDataLength (next w).ctx.Size) (next w).ctx.Request.UserAgent),
             msg := env.errorsString (ByTypePrivate (next w).ctx.Errors) }] } := by
  have hlen : (next w).ctx.Errors.length > 0 := List.length_pos.mpr h
  simp only [LoggerWithConfig, if_pos hlen, Entry.emit, withFields_newEntry]

/-- Without a recorded error the handler appends one call whose level is
chosen from the status code and whose message is the access line. -/
theorem run_of_no_errors (cfg : GinLogrusConfig) (env : Env) (next : World → World) (w : World)
    (h : (next w).ctx.Errors = []) :
    LoggerWithConfig cfg env next w =
      { ctx := (next w).ctx,
        log := (next w).log ++
          [{ level := if (next w).ctx.Status > 499 then Level.error
               else if (next w).ctx.Status > 399 then Level.warn else Level.info,
             data := mapLiteral (logrusFields cfg (resolveHostname env.hostname)
               (next w).ctx.Status (latencyOf env.elapsed) (next w).ctx.ClientIP
               (next w).ctx.Request.Method w.ctx.Request.Path (next w).ctx.Request.Referer
               (clampDataLength (next w).ctx.Size) (next w).ctx.Request.UserAgent),
             msg := accessLine (next w).ctx.ClientIP (resolveHostname env.hostname)
               (env.now cfg.TimeFormat) (next w).ctx.Request.Method w.ctx.Request.Path
               (next w).ctx.Status (clampDataLength (next w).ctx.Size)
               (next w).ctx.Request.Referer (next w).ctx.Request.UserAgent
               (latencyOf env.elapsed) }] } := by
  have hlen : ¬ (next w).ctx.Errors.length > 0 := by simp [h]
  simp only [LoggerWithConfig, if_neg hlen, Entry.emit, withFields_newEntry]
  split
  · rfl
  · split <;> rfl

theorem emitted_of_errors (cfg : GinLogrusConfig) (env : Env) (next : World → World)
    (w : World) (h : (next w).ctx.Errors ≠ []) :
    emitted cfg env next w =
      [{ level := Level.error,
         data := mapLiteral (logrusFields cfg (resolveHostname env.hostname)
           (next w).ctx.Status (latencyOf env.elapsed) (next w).ctx.ClientIP
           (next w).ctx.Request.Method w.ctx.Request.Path (next w).ctx.Request.Referer
           (clampDataLength (next w).ctx.Size) (next w).ctx.Request.UserAgent),
         msg := env.errorsString (ByTypePrivate (next w).ctx.Errors) }] := by
  unfold emitted
  rw [run_of_errors cfg env next w h]
  exact List.drop_left _ _

theorem emitted_of_no_errors (cfg : GinLogrusConfig) (env : Env) (next : World → World)
    (w : World) (h : (next w).ctx.Errors = []) :
    emitted cfg env next w =
      [{ level := if (next w).ctx.Status > 499 then Level.error
           else if (next w).ctx.Status > 399 then Level.warn else Level.info,
         data := mapLiteral (logrusFields cfg (resolveHostname env.hostname)
           (next w).ctx.Status (latencyOf env.elapsed) (next w).ctx.ClientIP
           (next w).ctx.Request.Method w.ctx.Request.Path (next w).ctx.Request.Referer
           (clampDataLength (next w).ctx.Size) (next w).ctx.Request.UserAgent),
         msg := accessLine (next w).ctx.ClientIP (resolveHostname env.hostname)
           (env.now cfg.TimeFormat) (next w).ctx.Request.Method w.ctx.Request.Path
           (next w).ctx.Status (clampDataLength (next w).ctx.Size)
           (next w).ctx.Request.Referer (next w).ctx.Request.UserAgent
           (latencyOf env.elapsed) }] := by
  unfold emitted
  rw [run_of_no_errors cfg env next w h]
  exact List.drop_left _ _

/-- Whatever the request, the handler made exactly one call; its data is the
field literal of this request, and its level and message are those of the
branch taken at line 97. -/
theorem emitted_call (cfg : GinLogrusConfig) (env : Env) (next : World → World) (w : World) :
    ∃ c, emitted cfg env next w = [c] ∧
      c.data = mapLiteral (logrusFields cfg (resolveHostname env.hostname)
        (next w).ctx.Status (latencyOf env.elapsed) (next w).ctx.ClientIP
        (next w).ctx.Request.Method w.ctx.Request.Path (next w).ctx.Request.Referer
        (clampDataLength (next w).ctx.Size) (next w).ctx.Request.UserAgent) ∧
      ((next w).ctx.Errors = [] →
        c.msg = accessLine (next w).ctx.ClientIP (resolveHostname env.hostname)
          (env.now cfg.TimeFormat) (next w).ctx.Request.Method w.ctx.Request.Path
          (next w).ctx.Status (clampDataLength (next w).ctx.Size)
          (next w).ctx.Request.Referer (next w).ctx.Request.UserAgent
          (latencyOf env.elapsed)) ∧
      ((next w).ctx.Errors ≠ [] →
        c.msg = env.errorsString (ByTypePrivate (next w).ctx.Errors)) := by
  by_cases h : (next w).ctx.Errors = []
  · refine ⟨_, emitted_of_no_errors cfg env next w h, ?_, ?_, ?_⟩
    · dsimp only
    · intro _; dsimp only
    · exact fun e => absurd h e
  · refine ⟨_, emitted_of_errors cfg env next w h, ?_, ?_, ?_⟩
    · dsimp only
    · exact fun e => absurd e h
    · intro _; dsimp only

/-- C1: when the chain recorded no error, the level of the one emitted entry
is determined by the response status code alone: info up to 399, warning
from 400 to 499, error from 500 on. -/
theorem severity_of_status (cfg : GinLogrusConfig) (env : Env) (next : World → World)
    (w : World) (h : (next w).ctx.Errors = []) :
    ((next w).ctx.Status ≤ 399 →
      (emitted cfg env next w).map LogCall.level = [Level.info]) ∧
    (400 ≤ (next w).ctx.Status → (next w).ctx.Status ≤ 499 →
      (emitted cfg env next w).map LogCall.level = [Level.warn]) ∧
    (500 ≤ (next w).ctx.Status →
      (emitted cfg env next w).map LogCall.level = [Level.error]) := by
  rw [emitted_of_no_errors cfg env next w h]
  refine ⟨fun h1 => ?_, fun h1 h2 => ?_, fun h1 => ?_⟩
  · have a : ¬ (next w).ctx.Status > 499 := by omega
    have b : ¬ (next w).ctx.Status > 399 := by omega
    simp only [List.map_cons, List.map_nil, if_neg a, if_neg b]
  · have a : ¬ (next w).ctx.Status > 499 := by omega
    have b : (next w).ctx.Status > 399 := by omega
    simp only [List.map_cons, List.map_nil, if_neg a, if_pos b]
  · have a : (next w).ctx.Status > 499 := by omega
    simp only [List.map_cons, List.map_nil, if_pos a]

/-- Instance of the severity theorem: status 404 with 512 bytes and no error
is logged as a warning. -/
theorem severity_of_status_witness :
    (respond 404 512 [] widgetsWorld).ctx.Errors = [] ∧
    (emitted DefaultGinLogrusConfig (sampleEnv 1500 (some "host42")) (respond 404 512 [])
      widgetsWorld).map LogCall.level = [Level.warn] :=
  ⟨rfl, (severity_of_status DefaultGinLogrusConfig (sampleEnv 1500 (some "host42"))
    (respond 404 512 []) widgetsWorld rfl).2.1 (by decide) (by decide)⟩

/-- C2: when the chain recorded at least one error, of whatever type and
whatever the status code, the one emitted entry is at level error and its
message is the rendering of the private-type errors only. -/
theorem errors_logged (cfg : GinLogrusConfig) (env : Env) (next : World → World)
    (w : World) (h : (next w).ctx.Errors ≠ []) :
    (emitted cfg env next w).map (fun c => (c.level, c.msg)) =
      [(Level.error,
        env.errorsString ((next w).ctx.Errors.filter (fun e => e.isPrivate)))] := by
  rw [emitted_of_errors cfg env next w h]
  rfl

/-- Instance of the error-branch theorem: status 200 with one private and one public
error is logged at level error with the private description only. -/
theorem errors_logged_witness :
    (respond 200 10 [⟨"boom", true⟩, ⟨"shown", false⟩] widgetsWorld).ctx.Errors ≠ [] ∧
    (emitted DefaultGinLogrusConfig (sampleEnv 1500 (some "host42"))
      (respond 200 10 [⟨"boom", true⟩, ⟨"shown", false⟩]) widgetsWorld).map
        (fun c => (c.level, c.msg)) = [(Level.error, "boom")] :=
  ⟨by decide, errors_logged DefaultGinLogrusConfig (sampleEnv 1500 (some "host42"))
    (respond 200 10 [⟨"boom", true⟩, ⟨"shown", false⟩]) widgetsWorld (by decide)⟩

/-! ## Exactly one entry -/

/-- C6: for every configuration, environment, downstream chain and request,
the handler leaves the context as the chain left it and appends exactly one
call (Error, Warn or Info) after the calls the chain made; that call carries
the field literal built for this request. -/
theorem exactly_one_entry (cfg : GinLogrusConfig) (env : Env) (next : World → World)
    (w : World) :
    (emitted cfg env next w).length = 1 ∧
    ∃ lvl msg, LoggerWithConfig cfg env next w =
      { ctx := (next w).ctx,
        log := (next w).log ++
          [{ level := lvl,
             data := mapLiteral (logrusFields cfg (resolveHostname env.hostname)
               (next w).ctx.Status (latencyOf env.elapsed) (next w).ctx.ClientIP
               (next w).ctx.Request.Method w.ctx.Request.Path (next w).ctx.Request.Referer
               (clampDataLength (next w).ctx.Size) (next w).ctx.Request.UserAgent),
             msg := msg }] } := by
  by_cases h : (next w).ctx.Errors = []
  · refine ⟨?_, _, _, run_of_no_errors cfg env next w h⟩
    rw [emitted_of_no_errors cfg env next w h, List.length_singleton]
  · refine ⟨?_, _, _, run_of_errors cfg env next w h⟩
    rw [emitted_of_errors cfg env next w h, List.length_singleton]

/-! ## Field values -/

theorem clampDataLength_eq_max (z : Int) : clampDataLength z = max z 0 := by
  unfold clampDataLength
  split
  · next h => exact (max_eq_right (le_of_lt h)).symm
  · next h => exact (max_eq_left (not_lt.mp h)).symm

/-- C4: for every configuration and request exactly one entry is emitted, and
its data length is `max z 0` for the response size `z` the writer reports
after the chain: the access-log message prints `max z 0` in decimal between
the status code and the referrer, and the field set holds it under the
data-length label whenever that label is not also the user-agent label (the
one later key of the literal). -/
theorem data_length_clamped (cfg : GinLogrusConfig) (env : Env) (next : World → World)
    (w : World) :
    0 ≤ max (next w).ctx.Size 0 ∧
    ∃ c, emitted cfg env next w = [c] ∧
      (fieldLabel cfg.FieldMap FieldKeyUserAgent ≠ fieldLabel cfg.FieldMap FieldKeyDataLength →
        fieldsGet c.data (fieldLabel cfg.FieldMap FieldKeyDataLength) =
          some (Value.int (max (next w).ctx.Size 0))) ∧
      ((next w).ctx.Errors = [] →
        c.msg =
          (next w).ctx.ClientIP ++ " - " ++ resolveHostname env.hostname ++ " ["
            ++ env.now cfg.TimeFormat ++ "] \"" ++ (next w).ctx.Request.Method ++ " "
            ++ w.ctx.Request.Path ++ "\" " ++ toString (next w).ctx.Status ++ " "
            ++ toString (max (next w).ctx.Size 0) ++ " \""
            ++ (next w).ctx.Request.Referer ++ "\" \"" ++ (next w).ctx.Request.UserAgent
            ++ "\" (" ++ toString (latencyOf env.elapsed) ++ "ms)") := by
  have hget : fieldLabel cfg.FieldMap FieldKeyUserAgent ≠
      fieldLabel cfg.FieldMap FieldKeyDataLength →
      ∀ hostname statusCode latency clientIP method path referer clientUserAgent,
      fieldsGet (mapLiteral (logrusFields cfg hostname statusCode latency clientIP method path
        referer (clampDataLength (next w).ctx.Size) clientUserAgent))
        (fieldLabel cfg.FieldMap FieldKeyDataLength) =
        some (Value.int (max (next w).ctx.Size 0)) := by
    intro h hostname statusCode latency clientIP method path referer clientUserAgent
    rw [← clampDataLength_eq_max]
    exact fieldsGet_mapLiteral
      [ (fieldLabel cfg.FieldMap FieldKeyHostname, Value.str hostname),
        (fieldLabel cfg.FieldMap FieldKeyStatusCode, Value.int statusCode),
        (fieldLabel cfg.FieldMap FieldKeyLatency, Value.int latency),
        (fieldLabel cfg.FieldMap FieldKeyClientIp, Value.str clientIP),
        (fieldLabel cfg.FieldMap FieldKeyMethod, Value.str method),
        (fieldLabel cfg.FieldMap FieldKeyPath, Value.str path),
        (fieldLabel cfg.FieldMap FieldKeyReferrer, Value.str referer) ]
      [ (fieldLabel cfg.FieldMap FieldKeyUserAgent, Value.str clientUserAgent) ]
      _ _ (by simpa using fun e => h e.symm)
  obtain ⟨c, hc, hd, hm, _⟩ := emitted_call cfg env next w
  refine ⟨le_max_right _ _, c, hc, fun h => ?_, fun he => ?_⟩
  · rw [hd]
    exact hget h _ _ _ _ _ _ _ _
  · rw [hm he, clampDataLength_eq_max]
    unfold accessLine
    rfl

/-- Instance of the data-length theorem: with the default labels a writer
size of -1 is logged as 0, in the field and in the message. -/
theorem data_length_clamped_witness :
    fieldLabel DefaultFieldMap FieldKeyUserAgent ≠ fieldLabel DefaultFieldMap FieldKeyDataLength ∧
    (respond 200 (-1) [] widgetsWorld).ctx.Errors = [] ∧
    ∃ c, emitted DefaultGinLogrusConfig (sampleEnv 1500 (some "host42")) (respond 200 (-1) [])
        widgetsWorld = [c] ∧
      fieldsGet c.data "dataLength" = some (Value.int 0) ∧
      c.msg = "10.0.0.5 - host42 [10/Oct/2000:13:55:36 -0700] \"GET /widgets\" 200 0 "
        ++ "\"http://ref.example\" \"TestAgent/1.0\" (2ms)" :=
  ⟨by decide, rfl, by
    obtain ⟨c, hc, hf, hm⟩ := (data_length_clamped DefaultGinLogrusConfig
      (sampleEnv 1500 (some "host42")) (respond 200 (-1) []) widgetsWorld).2
    have hl : latencyOf 1500 = 2 := by decide
    refine ⟨c, hc, hf (by decide), ?_⟩
    rw [hm rfl]
    show _ ++ toString (latencyOf 1500) ++ "ms)" = _
    rw [hl]
    decide⟩

/-- C5: for every configuration and request exactly one entry is emitted,
whether or not `os.Hostname` failed; the access-log message names `"unknown"`
after the client address if the lookup failed and the looked-up name
otherwise, and the field set holds the same string under the host name label
whenever no later key of the literal reuses that label. -/
theorem hostname_fallback (cfg : GinLogrusConfig) (env : Env) (next : World → World)
    (w : World) :
    ∃ c, emitted cfg env next w = [c] ∧
      (env.hostname = none →
        (fieldLabel cfg.FieldMap FieldKeyHostname ∉
          [ fieldLabel cfg.FieldMap FieldKeyStatusCode, fieldLabel cfg.FieldMap FieldKeyLatency,
            fieldLabel cfg.FieldMap FieldKeyClientIp, fieldLabel cfg.FieldMap FieldKeyMethod,
            fieldLabel cfg.FieldMap FieldKeyPath, fieldLabel cfg.FieldMap FieldKeyReferrer,
            fieldLabel cfg.FieldMap FieldKeyDataLength,
            fieldLabel cfg.FieldMap FieldKeyUserAgent ] →
          fieldsGet c.data (fieldLabel cfg.FieldMap FieldKeyHostname) =
            some (Value.str "unknown")) ∧
        ((next w).ctx.Errors = [] →
          c.msg =
            (next w).ctx.ClientIP ++ " - " ++ "unknown" ++ " ["
              ++ env.now cfg.TimeFormat ++ "] \"" ++ (next w).ctx.Request.Method ++ " "
              ++ w.ctx.Request.Path ++ "\" " ++ toString (next w).ctx.Status ++ " "
              ++ toString (clampDataLength (next w).ctx.Size) ++ " \""
              ++ (next w).ctx.Request.Referer ++ "\" \"" ++ (next w).ctx.Request.UserAgent
              ++ "\" (" ++ toString (latencyOf env.elapsed) ++ "ms)")) ∧
      (∀ host, env.hostname = some host →
        (fieldLabel cfg.FieldMap FieldKeyHostname ∉
          [ fieldLabel cfg.FieldMap FieldKeyStatusCode, fieldLabel cfg.FieldMap FieldKeyLatency,
            fieldLabel cfg.FieldMap FieldKeyClientIp, fieldLabel cfg.FieldMap FieldKeyMethod,
            fieldLabel cfg.FieldMap FieldKeyPath, fieldLabel cfg.FieldMap FieldKeyReferrer,
            fieldLabel cfg.FieldMap FieldKeyDataLength,
            fieldLabel cfg.FieldMap FieldKeyUserAgent ] →
          fieldsGet c.data (fieldLabel cfg.FieldMap FieldKeyHostname) =
            some (Value.str host)) ∧
        ((next w).ctx.Errors = [] →
          c.msg =
            (next w).ctx.ClientIP ++ " - " ++ host ++ " ["
              ++ env.now cfg.TimeFormat ++ "] \"" ++ (next w).ctx.Request.Method ++ " "
              ++ w.ctx.Request.Path ++ "\" " ++ toString (next w).ctx.Status ++ " "
              ++ toString (clampDataLength (next w).ctx.Size) ++ " \""
              ++ (next w).ctx.Request.Referer ++ "\" \"" ++ (next w).ctx.Request.UserAgent
              ++ "\" (" ++ toString (latencyOf env.elapsed) ++ "ms)")) := by
  have hget : fieldLabel cfg.FieldMap FieldKeyHostname ∉
      [ fieldLabel cfg.FieldMap FieldKeyStatusCode, fieldLabel cfg.FieldMap FieldKeyLatency,
        fieldLabel cfg.FieldMap FieldKeyClientIp, fieldLabel cfg.FieldMap FieldKeyMethod,
        fieldLabel cfg.FieldMap FieldKeyPath, fieldLabel cfg.FieldMap FieldKeyReferrer,
        fieldLabel cfg.FieldMap FieldKeyDataLength,
        fieldLabel cfg.FieldMap FieldKeyUserAgent ] →
      ∀ hostname statusCode latency clientIP method path referer dataLength clientUserAgent,
      fieldsGet (mapLiteral (logrusFields cfg hostname statusCode latency clientIP method path
        referer dataLength clientUserAgent)) (fieldLabel cfg.FieldMap FieldKeyHostname) =
        some (Value.str hostname) := by
    intro h hostname statusCode latency clientIP method path referer dataLength clientUserAgent
    exact fieldsGet_mapLiteral []
      [ (fieldLabel cfg.FieldMap FieldKeyStatusCode, Value.int statusCode),
        (fieldLabel cfg.FieldMap FieldKeyLatency, Value.int latency),
        (fieldLabel cfg.FieldMap FieldKeyClientIp, Value.str clientIP),
        (fieldLabel cfg.FieldMap FieldKeyMethod, Value.str method),
        (fieldLabel cfg.FieldMap FieldKeyPath, Value.str path),
        (fieldLabel cfg.FieldMap FieldKeyReferrer, Value.str referer),
        (fieldLabel cfg.FieldMap FieldKeyDataLength, Value.int dataLength),
        (fieldLabel cfg.FieldMap FieldKeyUserAgent, Value.str clientUserAgent) ]
      _ _ (by simpa using h)
  obtain ⟨c, hc, hd, hm, _⟩ := emitted_call cfg env next w
  have hf : fieldLabel cfg.FieldMap FieldKeyHostname ∉
      [ fieldLabel cfg.FieldMap FieldKeyStatusCode, fieldLabel cfg.FieldMap FieldKeyLatency,
        fieldLabel cfg.FieldMap FieldKeyClientIp, fieldLabel cfg.FieldMap FieldKeyMethod,
        fieldLabel cfg.FieldMap FieldKeyPath, fieldLabel cfg.FieldMap FieldKeyReferrer,
        fieldLabel cfg.FieldMap FieldKeyDataLength,
        fieldLabel cfg.FieldMap FieldKeyUserAgent ] →
      fieldsGet c.data (fieldLabel cfg.FieldMap FieldKeyHostname) =
        some (Value.str (resolveHostname env.hostname)) := by
    intro h
    rw [hd]
    exact hget h _ _ _ _ _ _ _ _ _
  unfold accessLine at hm
  refine ⟨c, hc, fun hn => ?_, fun host hs => ?_⟩
  · rw [hn] at hf hm
    exact ⟨hf, hm⟩
  · rw [hs] at hf hm
    exact ⟨hf, hm⟩

/-- Instance of the host name theorem: with the default labels a failed lookup
is logged as `"unknown"`, in the field and in the message. -/
theorem hostname_fallback_witness :
    fieldLabel DefaultFieldMap FieldKeyHostname ∉
      [ fieldLabel DefaultFieldMap FieldKeyStatusCode, fieldLabel DefaultFieldMap FieldKeyLatency,
        fieldLabel DefaultFieldMap FieldKeyClientIp, fieldLabel DefaultFieldMap FieldKeyMethod,
        fieldLabel DefaultFieldMap FieldKeyPath, fieldLabel DefaultFieldMap FieldKeyReferrer,
        fieldLabel DefaultFieldMap FieldKeyDataLength,
        fieldLabel DefaultFieldMap FieldKeyUserAgent ] ∧
    (respond 200 42 [] widgetsWorld).ctx.Errors = [] ∧
    ∃ c, emitted DefaultGinLogrusConfig (sampleEnv 1500 none) (respond 200 42 [])
        widgetsWorld = [c] ∧
      fieldsGet c.data "hostname" = some (Value.str "unknown") ∧
      c.msg = "10.0.0.5 - unknown [10/Oct/2000:13:55:36 -0700] \"GET /widgets\" 200 42 "
        ++ "\"http://ref.example\" \"TestAgent/1.0\" (2ms)" :=
  ⟨by decide, rfl, by
    obtain ⟨c, hc, hn, _⟩ := hostname_fallback DefaultGinLogrusConfig (sampleEnv 1500 none)
      (respond 200 42 []) widgetsWorld
    have hl : latencyOf 1500 = 2 := by decide
    refine ⟨c, hc, (hn rfl).1 (by decide), ?_⟩
    rw [(hn rfl).2 rfl]
    show _ ++ toString (latencyOf 1500) ++ "ms)" = _
    rw [hl]
    decide⟩

/-- C9: for every configuration, request and downstream chain exactly one
entry is emitted and the path it logs is the request path at entry to the
handler, also when the chain rewrites it: the access-log message prints that
path after the method, with status, size and the other attributes read after
the chain, and the field set holds it under the path label whenever no later
key of the literal reuses that label. -/
theorem path_captured_before_chain (cfg : GinLogrusConfig) (env : Env)
    (next : World → World) (w : World) :
    ∃ c, emitted cfg env next w = [c] ∧
      (fieldLabel cfg.FieldMap FieldKeyPath ∉
        [ fieldLabel cfg.FieldMap FieldKeyReferrer, fieldLabel cfg.FieldMap FieldKeyDataLength,
          fieldLabel cfg.FieldMap FieldKeyUserAgent ] →
        fieldsGet c.data (fieldLabel cfg.FieldMap FieldKeyPath) =
          some (Value.str w.ctx.Request.Path)) ∧
      ((next w).ctx.Errors = [] →
        c.msg =
          (next w).ctx.ClientIP ++ " - " ++ resolveHostname env.hostname ++ " ["
            ++ env.now cfg.TimeFormat ++ "] \"" ++ (next w).ctx.Request.Method ++ " "
            ++ w.ctx.Request.Path ++ "\" " ++ toString (next w).ctx.Status ++ " "
            ++ toString (clampDataLength (next w).ctx.Size) ++ " \""
            ++ (next w).ctx.Request.Referer ++ "\" \"" ++ (next w).ctx.Request.UserAgent
            ++ "\" (" ++ toString (latencyOf env.elapsed) ++ "ms)") ∧
      ((next w).ctx.Errors ≠ [] →
        c.level = Level.error ∧
        c.msg = env.errorsString (ByTypePrivate (next w).ctx.Errors)) := by
  have hget : fieldLabel cfg.FieldMap FieldKeyPath ∉
      [ fieldLabel cfg.FieldMap FieldKeyReferrer, fieldLabel cfg.FieldMap FieldKeyDataLength,
        fieldLabel cfg.FieldMap FieldKeyUserAgent ] →
      ∀ hostname statusCode latency clientIP method referer dataLength clientUserAgent,
      fieldsGet (mapLiteral (logrusFields cfg hostname statusCode latency clientIP method
        w.ctx.Request.Path referer dataLength clientUserAgent))
        (fieldLabel cfg.FieldMap FieldKeyPath) = some (Value.str w.ctx.Request.Path) := by
    intro h hostname statusCode latency clientIP method referer dataLength clientUserAgent
    exact fieldsGet_mapLiteral
      [ (fieldLabel cfg.FieldMap FieldKeyHostname, Value.str hostname),
        (fieldLabel cfg.FieldMap FieldKeyStatusCode, Value.int statusCode),
        (fieldLabel cfg.FieldMap FieldKeyLatency, Value.int latency),
        (fieldLabel cfg.FieldMap FieldKeyClientIp, Value.str clientIP),
        (fieldLabel cfg.FieldMap FieldKeyMethod, Value.str method) ]
      [ (fieldLabel cfg.FieldMap FieldKeyReferrer, Value.str referer),
        (fieldLabel cfg.FieldMap FieldKeyDataLength, Value.int dataLength),
        (fieldLabel cfg.FieldMap FieldKeyUserAgent, Value.str clientUserAgent) ]
      _ _ (by simpa using h)
  obtain ⟨c, hc, hd, hm, he⟩ := emitted_call cfg env next w
  unfold accessLine at hm
  refine ⟨c, hc, fun h => ?_, hm, fun hne => ⟨?_, he hne⟩⟩
  · rw [hd]
    exact hget h _ _ _ _ _ _ _ _
  · rw [emitted_of_errors cfg env next w hne] at hc
    rw [← (List.cons.inj hc).1]

/-- Instance of the path theorem: the chain rewrites the path to
`"/rewritten"`, and the entry still carries `"/widgets"`, in the field and in
the message. -/
theorem path_captured_before_chain_witness :
    fieldLabel DefaultFieldMap FieldKeyPath ∉
      [ fieldLabel DefaultFieldMap FieldKeyReferrer, fieldLabel DefaultFieldMap FieldKeyDataLength,
        fieldLabel DefaultFieldMap FieldKeyUserAgent ] ∧
    (respond 404 42 [] widgetsWorld).ctx.Errors = [] ∧
    (respond 404 42 [] widgetsWorld).ctx.Request.Path = "/rewritten" ∧
    ∃ c, emitted DefaultGinLogrusConfig (sampleEnv 1500 (some "host42")) (respond 404 42 [])
        widgetsWorld = [c] ∧
      fieldsGet c.data "path" = some (Value.str "/widgets") ∧
      c.msg = "10.0.0.5 - host42 [10/Oct/2000:13:55:36 -0700] \"GET /widgets\" 404 42 "
        ++ "\"http://ref.example\" \"TestAgent/1.0\" (2ms)" :=
  ⟨by decide, rfl, rfl, by
    obtain ⟨c, hc, hf, hm, _⟩ := path_captured_before_chain DefaultGinLogrusConfig
      (sampleEnv 1500 (some "host42")) (respond 404 42 []) widgetsWorld
    have hl : latencyOf 1500 = 2 := by decide
    refine ⟨c, hc, hf (by decide), ?_⟩
    rw [hm rfl]
    show _ ++ toString (latencyOf 1500) ++ "ms)" = _
    rw [hl]
    decide⟩

/-! ## The field set -/

theorem keys_logrusFields (cfg : GinLogrusConfig) (hostname : String)
    (statusCode latency : Int) (clientIP method path referer : String) (dataLength : Int)
    (clientUserAgent : String) :
    (logrusFields cfg hostname statusCode latency clientIP method path referer dataLength
      clientUserAgent).map Prod.fst = resolvedLabels cfg := rfl

theorem fieldLabel_of_not_mem (m : FieldMap) (k : String) (h : k ∉ m.map Prod.fst) :
    fieldLabel m k = "" := by
  unfold fieldLabel
  induction m with
  | nil => rfl
  | cons p rest ih =>
    obtain ⟨k0, l0⟩ := p
    simp only [List.map_cons, List.mem_cons, not_or] at h
    have h1 : (k == k0) = false := by simpa using h.1
    simp only [List.lookup, h1]
    exact ih h.2

/-- C7: when the nine resolved labels are pairwise distinct, the data of the
emitted entry is exactly the nine pairs of label and captured value; the
handler of `Logger` uses the labels hostname, statusCode, latency, ClientIP,
method, path, referer, dataLength, userAgent; and with `FieldKeyStatusCode`
mapped to `"http_status"` the status code is under `"http_status"` and no
field has key `"statusCode"`. -/
theorem fields_exact (cfg : GinLogrusConfig) (env : Env) (next : World → World) (w : World)
    (h : (resolvedLabels cfg).Nodup) :
    (∃ c, emitted cfg env next w = [c] ∧
      c.data =
        [ (fieldLabel cfg.FieldMap FieldKeyHostname, Value.str (resolveHostname env.hostname)),
          (fieldLabel cfg.FieldMap FieldKeyStatusCode, Value.int (next w).ctx.Status),
          (fieldLabel cfg.FieldMap FieldKeyLatency, Value.int (latencyOf env.elapsed)),
          (fieldLabel cfg.FieldMap FieldKeyClientIp, Value.str (next w).ctx.ClientIP),
          (fieldLabel cfg.FieldMap FieldKeyMethod, Value.str (next w).ctx.Request.Method),
          (fieldLabel cfg.FieldMap FieldKeyPath, Value.str w.ctx.Request.Path),
          (fieldLabel cfg.FieldMap FieldKeyReferrer, Value.str (next w).ctx.Request.Referer),
          (fieldLabel cfg.FieldMap FieldKeyDataLength,
            Value.int (clampDataLength (next w).ctx.Size)),
          (fieldLabel cfg.FieldMap FieldKeyUserAgent,
            Value.str (next w).ctx.Request.UserAgent) ]) ∧
    (∃ c, (Logger env next w).log.drop (next w).log.length = [c] ∧
      c.data =
        [ ("hostname", Value.str (resolveHostname env.hostname)),
          ("statusCode", Value.int (next w).ctx.Status),
          ("latency", Value.int (latencyOf env.elapsed)),
          ("ClientIP", Value.str (next w).ctx.ClientIP),
          ("method", Value.str (next w).ctx.Request.Method),
          ("path", Value.str w.ctx.Request.Path),
          ("referer", Value.str (next w).ctx.Request.Referer),
          ("dataLength", Value.int (clampDataLength (next w).ctx.Size)),
          ("userAgent", Value.str (next w).ctx.Request.UserAgent) ]) ∧
    (∃ c, emitted httpStatusConfig env next w = [c] ∧
      fieldsGet c.data "http_status" = some (Value.int (next w).ctx.Status) ∧
      fieldsGet c.data "statusCode" = none ∧
      "statusCode" ∉ c.data.map Prod.fst) := by
  have hall : ∀ cfg0 : GinLogrusConfig, (resolvedLabels cfg0).Nodup →
      ∃ c, emitted cfg0 env next w = [c] ∧
        c.data = logrusFields cfg0 (resolveHostname env.hostname)
          (next w).ctx.Status (latencyOf env.elapsed) (next w).ctx.ClientIP
          (next w).ctx.Request.Method w.ctx.Request.Path (next w).ctx.Request.Referer
          (clampDataLength (next w).ctx.Size) (next w).ctx.Request.UserAgent := by
    intro cfg0 h0
    obtain ⟨c, hc, hd, _, _⟩ := emitted_call cfg0 env next w
    refine ⟨c, hc, ?_⟩
    rw [hd]
    exact mapLiteral_of_nodup _ (by rw [keys_logrusFields]; exact h0)
  refine ⟨hall cfg h, ?_, ?_⟩
  · obtain ⟨c, hc, hd⟩ := hall DefaultGinLogrusConfig (by decide)
    exact ⟨c, hc, hd⟩
  · obtain ⟨c, hc, hd⟩ := hall httpStatusConfig (by decide)
    refine ⟨c, hc, ?_, ?_, ?_⟩
    · rw [hd]; rfl
    · rw [hd]; rfl
    · rw [hd, keys_logrusFields]; decide

/-- Instance of the field-set theorem at the default configuration. -/
theorem fields_exact_witness :
    (resolvedLabels DefaultGinLogrusConfig).Nodup ∧
    ∃ c, emitted DefaultGinLogrusConfig (sampleEnv 1500 (some "host42")) (respond 200 42 [])
        widgetsWorld = [c] ∧
      c.data =
        [ ("hostname", Value.str "host42"),
          ("statusCode", Value.int 200),
          ("latency", Value.int (latencyOf 1500)),
          ("ClientIP", Value.str "10.0.0.5"),
          ("method", Value.str "GET"),
          ("path", Value.str "/widgets"),
          ("referer", Value.str "http://ref.example"),
          ("dataLength", Value.int 42),
          ("userAgent", Value.str "TestAgent/1.0") ] :=
  ⟨by decide, (fields_exact DefaultGinLogrusConfig (sampleEnv 1500 (some "host42"))
    (respond 200 42 []) widgetsWorld (by decide)).1⟩

theorem length_dedup_eq_iff_nodup (l : List String) : l.dedup.length = l.length ↔ l.Nodup := by
  constructor
  · intro h
    have h1 : l.dedup = l := (List.dedup_sublist l).eq_of_length h
    rw [← h1]
    exact List.nodup_dedup l
  · intro h
    rw [h.dedup]

/-- C10: a key absent from the field map resolves to the empty label; the
data of the emitted entry has one binding per distinct resolved label, so it
has nine bindings exactly when the nine labels are pairwise distinct; every
binding is the pair of an attribute label and that attribute's value; and
with an empty field map the only key is the empty string. -/
theorem label_collisions (cfg : GinLogrusConfig) (env : Env) (next : World → World)
    (w : World) :
    (∀ k, k ∉ cfg.FieldMap.map Prod.fst → fieldLabel cfg.FieldMap k = "") ∧
    (∃ c, emitted cfg env next w = [c] ∧
      c.data.length = (resolvedLabels cfg).dedup.length ∧
      (c.data.length = 9 ↔ (resolvedLabels cfg).Nodup) ∧
      (c.data.map Prod.fst).Nodup ∧
      (∀ k, k ∈ c.data.map Prod.fst ↔ k ∈ resolvedLabels cfg) ∧
      (∀ k v, (k, v) ∈ c.data →
        (k, v) ∈ logrusFields cfg (resolveHostname env.hostname)
          (next w).ctx.Status (latencyOf env.elapsed) (next w).ctx.ClientIP
          (next w).ctx.Request.Method w.ctx.Request.Path (next w).ctx.Request.Referer
          (clampDataLength (next w).ctx.Size) (next w).ctx.Request.UserAgent)) ∧
    (∃ c, emitted emptyConfig env next w = [c] ∧
      c.data.map Prod.fst = [""] ∧ c.data.length = 1) := by
  have hlen : ∀ cfg0 : GinLogrusConfig, ∃ c, emitted cfg0 env next w = [c] ∧
      c.data = mapLiteral (logrusFields cfg0 (resolveHostname env.hostname)
        (next w).ctx.Status (latencyOf env.elapsed) (next w).ctx.ClientIP
        (next w).ctx.Request.Method w.ctx.Request.Path (next w).ctx.Request.Referer
        (clampDataLength (next w).ctx.Size) (next w).ctx.Request.UserAgent) ∧
      c.data.length = (resolvedLabels cfg0).dedup.length := by
    intro cfg0
    obtain ⟨c, hc, hd, _, _⟩ := emitted_call cfg0 env next w
    refine ⟨c, hc, hd, ?_⟩
    rw [hd, length_mapLiteral, keys_logrusFields]
  refine ⟨fun k hk => fieldLabel_of_not_mem _ k hk, ?_, ?_⟩
  · obtain ⟨c, hc, hd, hl⟩ := hlen cfg
    refine ⟨c, hc, hl, ?_, ?_, ?_, ?_⟩
    · rw [hl, ← length_dedup_eq_iff_nodup]
      rfl
    · rw [hd]
      exact nodup_keys_mapLiteral _
    · intro k
      have h2 := (keys_foldl_fieldsSet (logrusFields cfg (resolveHostname env.hostname)
        (next w).ctx.Status (latencyOf env.elapsed) (next w).ctx.ClientIP
        (next w).ctx.Request.Method w.ctx.Request.Path (next w).ctx.Request.Referer
        (clampDataLength (next w).ctx.Size) (next w).ctx.Request.UserAgent) []
        (by simp)).2
      rw [keys_logrusFields] at h2
      have h3 := congrArg (fun s => k ∈ s) h2
      simp only [List.map_nil, List.toFinset_nil, Finset.empty_union, List.mem_toFinset,
        eq_iff_iff] at h3
      rw [hd]
      exact h3
    · intro k v hkv
      rw [hd] at hkv
      exact mem_mapLiteral _ _ hkv
  · obtain ⟨c, hc, hd, hl⟩ := hlen emptyConfig
    refine ⟨c, hc, ?_, ?_⟩
    · rw [hd]; rfl
    · rw [hl]; decide

/-- Instance of the label-collision theorem at the empty field map: the hostname key
resolves to the empty label and the entry carries a single field. -/
theorem label_collisions_witness :
    FieldKeyHostname ∉ emptyConfig.FieldMap.map Prod.fst ∧
    fieldLabel emptyConfig.FieldMap FieldKeyHostname = "" ∧
    ∃ c, emitted emptyConfig (sampleEnv 1500 (some "host42")) (respond 200 42 [])
        widgetsWorld = [c] ∧ c.data.length = 1 ∧ ¬ (resolvedLabels emptyConfig).Nodup :=
  ⟨by decide,
    (label_collisions emptyConfig (sampleEnv 1500 (some "host42")) (respond 200 42 [])
      widgetsWorld).1 FieldKeyHostname (by decide),
    (label_collisions emptyConfig (sampleEnv 1500 (some "host42")) (respond 200 42 [])
      widgetsWorld).2.1.imp fun _ hc =>
        ⟨hc.1, by rw [hc.2.1]; decide, by decide⟩⟩

/-! ## Latency -/

theorem log2Aux_le (fuel n k : Nat) (h : n < 2 ^ (k + 1)) : log2Aux fuel n ≤ k := by
  induction fuel generalizing n k with
  | zero => exact Nat.zero_le _
  | succ f ih =>
    unfold log2Aux
    split
    · exact Nat.zero_le _
    · next h2 =>
      cases k with
      | zero => omega
      | succ j =>
        have h3 : n / 2 < 2 ^ (j + 1) := by
          rw [Nat.div_lt_iff_lt_mul (by decide)]
          rw [pow_succ] at h
          exact h
        have := ih (n / 2) j h3
        omega

theorem floorLog2_le (n k : Nat) (h : n < 2 ^ (k + 1)) : floorLog2 n ≤ k :=
  log2Aux_le n n k h

theorem roundHalfEven_of_dvd (a b : Nat) (hb : 0 < b) (h : b ∣ a) :
    roundHalfEven a b * b = a := by
  have h0 : a % b = 0 := Nat.mod_eq_zero_of_dvd h
  unfold roundHalfEven
  simp only [h0, Nat.mul_zero, hb, if_true]
  exact Nat.div_mul_cancel h

theorem roundHalfEven_near (a b : Nat) (hb : 0 < b) :
    2 * (roundHalfEven a b * b) ≤ 2 * a + b ∧ 2 * a ≤ 2 * (roundHalfEven a b * b) + b := by
  have h1 := Nat.div_add_mod a b
  have h2 := Nat.mod_lt a hb
  have h3 : (a / b + 1) * b = b * (a / b) + b := by ring
  have h4 : a / b * b = b * (a / b) := by ring
  unfold roundHalfEven
  simp only []
  split
  · rw [h4]; omega
  · split
    · rw [h3]; omega
    · split
      · rw [h4]; omega
      · rw [h3]; omega

set_option maxRecDepth 100000 in
theorem floorLog2_den : floorLog2 (2 ^ 53 * 1000) = 62 := by decide

theorem ceil_core (n t : Nat) (hn : n < 2 ^ 53) (ht : t ≤ 106) :
    (roundHalfEven (n * 2 ^ 53 * 2 ^ 115) (2 ^ 53 * 1000 * 2 ^ t) * 2 ^ t + 2 ^ 115 - 1) / 2 ^ 115
      = (n + 999) / 1000 := by
  have hT : 2 ^ t ≤ 2 ^ 106 := Nat.pow_le_pow_right (by decide) ht
  have hTpos : 0 < 2 ^ t := Nat.two_pow_pos t
  have hB : 0 < 2 ^ 53 * 1000 * 2 ^ t := Nat.mul_pos (by decide) hTpos
  obtain ⟨h1, h2⟩ := roundHalfEven_near (n * 2 ^ 53 * 2 ^ 115) (2 ^ 53 * 1000 * 2 ^ t) hB
  have hex : n % 1000 = 0 →
      roundHalfEven (n * 2 ^ 53 * 2 ^ 115) (2 ^ 53 * 1000 * 2 ^ t) * (2 ^ 53 * 1000 * 2 ^ t)
        = n * 2 ^ 53 * 2 ^ 115 := by
    intro hr
    apply roundHalfEven_of_dvd _ _ hB
    obtain ⟨k, hk⟩ := Nat.dvd_of_mod_eq_zero hr
    refine ⟨k * 2 ^ (115 - t), ?_⟩
    have hp : (2 : Nat) ^ 115 = 2 ^ t * 2 ^ (115 - t) := by
      rw [← pow_add]
      congr 1
      omega
    rw [hk, hp]
    ring
  generalize roundHalfEven (n * 2 ^ 53 * 2 ^ 115) (2 ^ 53 * 1000 * 2 ^ t) = m at h1 h2 hex ⊢
  have hm : m * (2 ^ 53 * 1000 * 2 ^ t) = 2 ^ 53 * 1000 * (m * 2 ^ t) := by ring
  rw [hm] at h1 h2 hex
  generalize m * 2 ^ t = P at h1 h2 hex ⊢
  generalize 2 ^ t = T at h1 h2 hT
  simp only [Nat.reducePow] at h1 h2 hex hT hn ⊢
  have hj : n = 1000 * (n / 1000) + n % 1000 := (Nat.div_add_mod n 1000).symm
  have hrlt : n % 1000 < 1000 := Nat.mod_lt n (by decide)
  generalize n / 1000 = j at hj
  generalize n % 1000 = r at hj hrlt hex
  subst hj
  by_cases hr : r = 0
  · have h3 := hex hr
    subst hr
    have hP : P = j * 41538374868278621028243970633760768 := by omega
    have hk : (1000 * j + 0 + 999) / 1000 = j := by omega
    rw [hk, hP]
    apply Nat.div_eq_of_lt_le
    · omega
    · omega
  · have hk : (1000 * j + r + 999) / 1000 = j + 1 := by omega
    have hlo : j * 41538374868278621028243970633760768 < P := by
      by_contra hc
      have hc2 : P ≤ j * 41538374868278621028243970633760768 := Nat.le_of_not_lt hc
      have hr1 : 1 ≤ r := Nat.pos_of_ne_zero hr
      linarith
    have hhi : P ≤ (j + 1) * 41538374868278621028243970633760768 := by
      by_contra hc
      have hc2 : (j + 1) * 41538374868278621028243970633760768 < P := Nat.lt_of_not_le hc
      linarith
    rw [hk]
    apply Nat.div_eq_of_lt_le
    · omega
    · omega

theorem roundToFloat64_of_lt (n : Nat) (h0 : 0 < n) (hn : n < 2 ^ 53) :
    roundToFloat64 n 1 = (n * 2 ^ 53, 2 ^ 53) := by
  have hL : floorLog2 1 = 0 := by decide
  have ht : floorLog2 (n * 2 ^ (0 + 1) / 1) ≤ 53 := by
    apply floorLog2_le
    rw [Nat.div_one]
    simp only [Nat.reducePow, Nat.reduceAdd] at hn ⊢
    omega
  unfold roundToFloat64
  rw [if_neg (Nat.pos_iff_ne_zero.mp h0), hL]
  simp only []
  generalize floorLog2 (n * 2 ^ (0 + 1) / 1) = t at ht
  have hdvd : 1 * 2 ^ t ∣ n * 2 ^ (0 + 1 + 52) := by
    refine ⟨n * 2 ^ (53 - t), ?_⟩
    have hp : (2 : Nat) ^ (0 + 1 + 52) = 2 ^ t * 2 ^ (53 - t) := by
      rw [← pow_add]
      congr 1
      omega
    rw [hp]
    ring
  have hpos : 0 < 1 * 2 ^ t := Nat.mul_pos (by decide) (Nat.two_pow_pos t)
  have hm := roundHalfEven_of_dvd _ _ hpos hdvd
  rw [Nat.one_mul] at hm
  rw [Nat.one_mul, hm]

theorem roundToFloat64_div1000 (n : Nat) (h0 : 0 < n) (hn : n < 2 ^ 53) :
    ∃ t, t ≤ 106 ∧ roundToFloat64 (n * 2 ^ 53) (2 ^ 53 * 1000) =
      (roundHalfEven (n * 2 ^ 53 * 2 ^ 115) (2 ^ 53 * 1000 * 2 ^ t) * 2 ^ t, 2 ^ 115) := by
  have ha : ¬ n * 2 ^ 53 = 0 := by
    have : 0 < n * 2 ^ 53 := Nat.mul_pos h0 (Nat.two_pow_pos 53)
    omega
  refine ⟨floorLog2 (n * 2 ^ 53 * 2 ^ (floorLog2 (2 ^ 53 * 1000) + 1) / (2 ^ 53 * 1000)), ?_, ?_⟩
  · apply floorLog2_le
    rw [floorLog2_den, Nat.div_lt_iff_lt_mul (by decide)]
    simp only [Nat.reducePow, Nat.reduceAdd, Nat.reduceMul] at hn ⊢
    omega
  · unfold roundToFloat64
    rw [if_neg ha, floorLog2_den]

theorem latencyOf_natCast (n : Nat) (hn : n < 2 ^ 53) :
    latencyOf (n : Int) = (((n + 999) / 1000 : Nat) : Int) := by
  by_cases h0 : n = 0
  · subst h0
    decide
  · have hpos : 0 < n := Nat.pos_of_ne_zero h0
    obtain ⟨t, ht, hdiv⟩ := roundToFloat64_div1000 n hpos hn
    have hneg : decide ((n : Int) < 0) = false := by
      simp
    unfold latencyOf float64OfInt Float64.div f1000
    simp only [Int.natAbs_ofNat, roundToFloat64_of_lt n hpos hn, hneg, Nat.mul_one, hdiv,
      mathCeil, intOfFloat64, Bool.xor_false, Bool.false_eq_true, if_false, Nat.div_one]
    rw [ceil_core n t hn ht]

set_option maxRecDepth 100000 in
theorem latencyOf_of_le (n : Int) (h0 : 0 ≤ n) (h1 : n ≤ 9007199254741000) :
    latencyOf n = (n + 999) / 1000 := by
  by_cases h2 : n < 2 ^ 53
  · lift n to ℕ using h0
    have hn : n < 2 ^ 53 := by exact_mod_cast h2
    rw [latencyOf_natCast n hn]
    push_cast
    rfl
  · have h3 : (2 : Int) ^ 53 = 9007199254740992 := by decide
    rw [h3] at h2
    have h4 : n = 9007199254740992 ∨ n = 9007199254740993 ∨ n = 9007199254740994 ∨
        n = 9007199254740995 ∨ n = 9007199254740996 ∨ n = 9007199254740997 ∨
        n = 9007199254740998 ∨ n = 9007199254740999 ∨ n = 9007199254741000 := by omega
    rcases h4 with h | h | h | h | h | h | h | h | h <;> subst h <;> decide

theorem ceil_div_thousand (n : Int) : ⌈(n : ℚ) / 1000⌉ = (n + 999) / 1000 := by
  rw [Int.ceil_eq_iff]
  have h1 : 1000 * ((n + 999) / 1000) ≤ n + 999 := by omega
  have h2 : n ≤ 1000 * ((n + 999) / 1000) := by omega
  generalize (n + 999) / 1000 = k at h1 h2 ⊢
  have h1q : (1000 : ℚ) * k ≤ n + 999 := by exact_mod_cast h1
  have h2q : (n : ℚ) ≤ 1000 * k := by exact_mod_cast h2
  constructor
  · rw [lt_div_iff₀ (by norm_num)]
    linarith
  · rw [div_le_iff₀ (by norm_num)]
    linarith

/-- C3 (as amended): for an elapsed time of `n` nanoseconds with
`0 ≤ n ≤ 9007199254741000` (that is `2^53 + 8`, about 104 days), the latency
computed at line 71 is exactly `⌈n / 1000⌉`, so it is never below the elapsed
time and never negative; 1 ns and 1000 ns give 1, 1001 ns gives 2. -/
theorem latency_ceil (n : Int) (h0 : 0 ≤ n) (h1 : n ≤ 9007199254741000) :
    latencyOf n = ⌈(n : ℚ) / 1000⌉ ∧ n ≤ latencyOf n * 1000 ∧ 0 ≤ latencyOf n ∧
    latencyOf 1 = 1 ∧ latencyOf 1000 = 1 ∧ latencyOf 1001 = 2 := by
  have h := latencyOf_of_le n h0 h1
  refine ⟨?_, ?_, ?_, by decide, by decide, by decide⟩
  · rw [ceil_div_thousand, h]
  · rw [h]; omega
  · rw [h]; omega

/-- Instance of the latency theorem at 1001 ns. -/
theorem latency_ceil_witness :
    (0 : Int) ≤ 1001 ∧ (1001 : Int) ≤ 9007199254741000 ∧ latencyOf 1001 = 2 ∧
    latencyOf 1001 = ⌈((1001 : Int) : ℚ) / 1000⌉ ∧ (1001 : Int) ≤ latencyOf 1001 * 1000 :=
  ⟨by decide, by decide, (latency_ceil 1001 (by decide) (by decide)).2.2.2.2.2,
    (latency_ceil 1001 (by decide) (by decide)).1,
    (latency_ceil 1001 (by decide) (by decide)).2.1⟩

set_option maxRecDepth 100000 in
/-- C3 fails as stated for large 64-bit durations: at 9007199254741001 ns
(`2^53 + 9`) `float64(n)` is 9007199254741000, the quotient is 9007199254741
although `⌈n / 1000⌉` is 9007199254742, and the latency is below the elapsed
time. -/
theorem latency_under_reported :
    (0 : Int) ≤ 9007199254741001 ∧ (9007199254741001 : Int) < 2 ^ 63 ∧
    (float64OfInt 9007199254741001).num =
      9007199254741000 * (float64OfInt 9007199254741001).den ∧
    latencyOf 9007199254741001 = 9007199254741 ∧
    ⌈((9007199254741001 : Int) : ℚ) / 1000⌉ = 9007199254742 ∧
    latencyOf 9007199254741001 ≠ ⌈((9007199254741001 : Int) : ℚ) / 1000⌉ ∧
    latencyOf 9007199254741001 * 1000 < 9007199254741001 := by
  have hl : latencyOf 9007199254741001 = 9007199254741 := by decide
  have hc : ⌈((9007199254741001 : Int) : ℚ) / 1000⌉ = 9007199254742 := by
    rw [ceil_div_thousand]
    decide
  refine ⟨by decide, by decide, by decide, hl, hc, ?_, ?_⟩
  · rw [hl, hc]
    decide
  · rw [hl]
    decide

/-! ## The access-log message -/

end GinLogrus
